import Mathlib

/-!
# Go-SQL-UML: statement-to-graph translation

A shallow embedding of `main.go`.  Go strings are modelled as lists of Unicode
code points (`Str`), which is what `strings.Map`, `strings.ToUpper` and
`strings.TrimSpace` see when the text is valid UTF-8.  The graph is the
`gographviz.Graph` the program mutates, threaded explicitly through every
operation.
-/

namespace GoSqlUml

/-- A Go string, as its sequence of runes. -/
abbrev Str := List Char

/-! ## The functions of Go's `strings` and `unicode` packages used by `main.go` -/

/-- The predicate `unicode.IsSpace`: the Latin-1 spaces `\t \n \v \f \r`, space, U+0085,
U+00A0, and the code points with the White_Space property above Latin-1. -/
def isSpace (c : Char) : Bool :=
  let n := c.toNat
  n == 9 || n == 10 || n == 11 || n == 12 || n == 13 || n == 32 || n == 0x85 || n == 0xA0
    || n == 0x1680 || (0x2000 ≤ n && n ≤ 0x200A) || n == 0x2028 || n == 0x2029
    || n == 0x202F || n == 0x205F || n == 0x3000

/-- The function `strings.TrimSpace`: drop the leading and the trailing white space. -/
def TrimSpace (s : Str) : Str :=
  (((s.dropWhile isSpace).reverse).dropWhile isSpace).reverse

/-- The function `strings.HasPrefix`: `len(s) >= len(p) && s[:len(p)] == p`. -/
def HasPrefix (s p : Str) : Bool :=
  decide (p.length ≤ s.length) && decide (s.take p.length = p)

/-- The function `strings.TrimPrefix`: `s` without the leading `p`, or `s` itself. -/
def TrimPrefix (s p : Str) : Str :=
  if HasPrefix s p then s.drop p.length else s

/-- The function `strings.HasSuffix`: `len(s) >= len(x) && s[len(s)-len(x):] == x`. -/
def HasSuffix (s x : Str) : Bool :=
  decide (x.length ≤ s.length) && decide (s.drop (s.length - x.length) = x)

/-- The function `strings.TrimSuffix`: `s` without the trailing `x`, or `s` itself. -/
def TrimSuffix (s x : Str) : Str :=
  if HasSuffix s x then s.take (s.length - x.length) else s

/-- The function `strings.Split(s, sep)` for a separator of one character, the only kind
`main.go` passes: every maximal piece between two separators, so a string without the
separator (the empty string too) gives one piece. -/
def Split (sep : Char) : Str → List Str
  | [] => [[]]
  | c :: cs =>
    if c = sep then [] :: Split sep cs
    else
      match Split sep cs with
      | [] => [[c]]
      | piece :: rest => (c :: piece) :: rest

/-- The function `strings.ReplaceAll(s, old, new)` for an `old` of one character. -/
def ReplaceAll (old : Char) (new : Str) : Str → Str
  | [] => []
  | c :: cs => if c = old then new ++ ReplaceAll old new cs else c :: ReplaceAll old new cs

/-- The function `strings.Map` for a mapping that never returns a negative rune. -/
def Map (mapping : Char → Char) (s : Str) : Str :=
  s.map mapping

/-- The function `unicode.ToUpper`: ASCII is handled by arithmetic; above ASCII Go looks the
rune up in the Unicode case tables, which are the parameter `caseTable`. -/
def toUpperRune (caseTable : Char → Char) (r : Char) : Char :=
  if r.toNat < 128 then
    if 97 ≤ r.toNat ∧ r.toNat ≤ 122 then Char.ofNat (r.toNat - 32) else r
  else caseTable r

/-- The function `strings.ToUpper`. -/
def ToUpper (caseTable : Char → Char) (s : Str) : Str :=
  Map (toUpperRune caseTable) s

/-! ## The part of `gographviz` that `main.go` drives -/

/-- The type `gographviz.Attrs`, a map from attribute name to value, kept as an association
list without repeated keys. -/
abbrev Attrs := List (Str × Str)

/-- The method `Attrs.Add`: `attrs[key] = value`. -/
def Attrs.add (key value : Str) : Attrs → Attrs
  | [] => [(key, value)]
  | (k, v) :: rest => if k = key then (k, value) :: rest else (k, v) :: Attrs.add key value rest

/-- The method `Attrs.Extend`: add every entry of `more`. -/
def Attrs.extend (attrs more : Attrs) : Attrs :=
  more.foldl (fun acc kv => Attrs.add kv.1 kv.2 acc) attrs

/-- The type `gographviz.Node`. -/
structure Node where
  name : Str
  attrs : Attrs
  deriving DecidableEq, Repr

/-- The type `gographviz.Edge`. -/
structure Edge where
  src : Str
  srcPort : Str
  dst : Str
  dstPort : Str
  dir : Bool
  attrs : Attrs
  deriving DecidableEq, Repr

/-- The method `Nodes.Add`: a node whose name is already present has its attributes
extended in place; a new one is appended. -/
def Nodes.add (node : Node) : List Node → List Node
  | [] => [node]
  | m :: ms =>
    if m.name = node.name then { m with attrs := Attrs.extend m.attrs node.attrs } :: ms
    else m :: Nodes.add node ms

/-- The method `Relations.Add`: record `child` under `parent`, once. -/
def Relations.add (parent child : Str) (rel : List (Str × Str)) : List (Str × Str) :=
  if (parent, child) ∈ rel then rel else rel ++ [(parent, child)]

/-- The type `gographviz.Graph`: name, direction, strictness, the nodes and the edges in
insertion order, and the parent/child relation.  Graph attributes and subgraphs, which
`main.go` never touches, are left out. -/
structure Graph where
  name : Str
  directed : Bool
  strict : Bool
  nodes : List Node
  edges : List Edge
  relations : List (Str × Str)
  deriving DecidableEq, Repr

/-- The method `Graph.AddNode(parentGraph, name, attrs)`.  The only attribute `main.go`
passes is `shape`, which `NewAttrs` accepts, so the call returns no error. -/
def Graph.AddNode (g : Graph) (parentGraph name : Str) (attrs : Attrs) : Graph :=
  { g with
    nodes := Nodes.add { name := name, attrs := Attrs.extend [] attrs } g.nodes
    relations := Relations.add parentGraph name g.relations }

/-- The method `Graph.AddEdge(src, dst, directed, attrs)`: `Edges.Add` appends the edge; it
looks neither for the endpoints among the nodes nor for an equal edge. -/
def Graph.AddEdge (g : Graph) (src dst : Str) (directed : Bool) (attrs : Attrs) : Graph :=
  { g with
    edges := g.edges ++
      [{ src := src, srcPort := [], dst := dst, dstPort := [], dir := directed,
         attrs := Attrs.extend [] attrs }] }

/-- The graph of `main` before the loop: `NewGraph()`, `SetName("UMLDiagram")`,
`SetDir(true)`. -/
def newGraph : Graph :=
  { name := "UMLDiagram".toList, directed := true, strict := false,
    nodes := [], edges := [], relations := [] }

/-! ## `main.go` -/

/-- The rune mapping inside `sanitizeNodeName`: letters and digits stay, the rest is `_`. -/
def sanitizeRune (r : Char) : Char :=
  if 65 ≤ r.toNat ∧ r.toNat ≤ 90 then r
  else if 97 ≤ r.toNat ∧ r.toNat ≤ 122 then r
  else if 48 ≤ r.toNat ∧ r.toNat ≤ 57 then r
  else '_'

/-- The function `sanitizeNodeName`. -/
def sanitizeNodeName (name : Str) : Str :=
  let sanitized := ReplaceAll ' ' "_".toList name
  Map sanitizeRune sanitized

/-- The function `parseCreateStatement`. -/
def parseCreateStatement (stmt : Str) : Str × List Str :=
  let parts := Split '(' stmt
  let tableName :=
    if 1 ≤ parts.length then TrimSpace (TrimPrefix (parts.getD 0 []) "CREATE TABLE".toList)
    else []
  let attributes :=
    if 2 ≤ parts.length then
      let attrStr := TrimSpace (TrimSuffix (parts.getD 1 []) ");".toList)
      (Split ',' attrStr).map TrimSpace
    else []
  (tableName, attributes)

/-- The function `addTableToGraph`. -/
def addTableToGraph (graphAst : Graph) (tableName : Str) (attributes : List Str) : Graph :=
  let nodeName := sanitizeNodeName tableName
  let g := graphAst.AddNode "UMLDiagram".toList nodeName [("shape".toList, "box".toList)]
  attributes.foldl
    (fun acc attr =>
      let attrName := sanitizeNodeName attr
      (acc.AddNode "UMLDiagram".toList attrName []).AddEdge nodeName attrName true [])
    g

/-- The function `extractTableNamesFromSelect`. -/
def extractTableNamesFromSelect (_stmt : Str) : List Str :=
  ["users".toList, "posts".toList]

/-- The function `parseSelectStatement`: `for i := 0; i < len(tableNames)-1; i++`. -/
def parseSelectStatement (stmt : Str) (graphAst : Graph) : Graph :=
  let tableNames := extractTableNamesFromSelect stmt
  (List.range (tableNames.length - 1)).foldl
    (fun acc i =>
      let src := sanitizeNodeName (tableNames.getD i [])
      let dst := sanitizeNodeName (tableNames.getD (i + 1) [])
      acc.AddEdge src dst true [])
    graphAst

/-- The branch the loop body of `main` takes for a statement. -/
inductive StatementKind where
  | SchemaDefinition
  | RelationshipQuery
  | Unrecognized
  deriving DecidableEq, Repr

/-- The two tests `isCreateStatement`, `isSelectStatement` and the `if`/`else if` of `main`. -/
def classify (caseTable : Char → Char) (stmt : Str) : StatementKind :=
  let isCreateStatement := HasPrefix (ToUpper caseTable stmt) "CREATE".toList
  let isSelectStatement := HasPrefix (ToUpper caseTable stmt) "SELECT".toList
  if isCreateStatement then StatementKind.SchemaDefinition
  else if isSelectStatement then StatementKind.RelationshipQuery
  else StatementKind.Unrecognized

/-- One iteration of the loop of `main` over `sqlStatements`. -/
def processStatement (caseTable : Char → Char) (graphAst : Graph) (stmt : Str) : Graph :=
  match classify caseTable stmt with
  | StatementKind.SchemaDefinition =>
    let (tableName, attributes) := parseCreateStatement stmt
    addTableToGraph graphAst tableName attributes
  | StatementKind.RelationshipQuery => parseSelectStatement stmt graphAst
  | StatementKind.Unrecognized => graphAst

/-- The loop of `main`, from the fresh graph. -/
def buildGraph (caseTable : Char → Char) (sqlStatements : List Str) : Graph :=
  sqlStatements.foldl (processStatement caseTable) newGraph

/-- The statements hard-coded in `main`. -/
def sqlStatements : List Str :=
  ["CREATE TABLE user (id INT, name VARCHAR(50), email VARCHAR(100));".toList,
   "CREATE TABLE posts (id INT, title VARCHAR(100), content TEXT, user_id INT);".toList,
   "SELECT users.name, posts.title FROM users INNER JOIN posts ON users.id = posts.user_id;".toList]

/-- The names of the nodes of a graph, in insertion order. -/
def Graph.nodeNames (g : Graph) : List Str :=
  g.nodes.map Node.name

/-- The (source, destination) pairs of the edges of a graph, in insertion order. -/
def Graph.edgePairs (g : Graph) : List (Str × Str) :=
  g.edges.map (fun e => (e.src, e.dst))

/-- The membership test of the class `[A-Za-z0-9]`, written with character bounds. -/
def isAlnum (c : Char) : Bool :=
  ('A' ≤ c && c ≤ 'Z') || ('a' ≤ c && c ≤ 'z') || ('0' ≤ c && c ≤ '9')

/-- The edge `AddEdge(src, dst, true, nil)` appends. -/
def directedEdge (src dst : Str) : Edge :=
  { src := src, srcPort := [], dst := dst, dstPort := [], dir := true, attrs := [] }

/-- The node `addTableToGraph` passes to `AddNode` for the table. -/
def tableNode (name : Str) : Node :=
  { name := name, attrs := [("shape".toList, "box".toList)] }

/-- The node `addTableToGraph` passes to `AddNode` for a column. -/
def columnNode (name : Str) : Node :=
  { name := name, attrs := [] }

/-- The node list after the column nodes of `attributes` were added to `ns`, in order. -/
def addColumnNodes (attributes : List Str) (ns : List Node) : List Node :=
  attributes.foldl (fun acc attr => Nodes.add (columnNode (sanitizeNodeName attr)) acc) ns

/-- The relation after the columns of `attributes` were recorded under the graph, in order. -/
def addColumnRelations (attributes : List Str) (rel : List (Str × Str)) : List (Str × Str) :=
  attributes.foldl (fun acc attr => Relations.add "UMLDiagram".toList (sanitizeNodeName attr) acc)
    rel

/-- The edges one iteration of the loop of `main` appends for a statement: one per parsed
attribute for a schema definition, the edges of the relationship query, none otherwise. -/
def statementEdges (caseTable : Char → Char) (stmt : Str) : List Edge :=
  match classify caseTable stmt with
  | StatementKind.SchemaDefinition =>
    (parseCreateStatement stmt).2.map
      (fun a => directedEdge (sanitizeNodeName (parseCreateStatement stmt).1) (sanitizeNodeName a))
  | StatementKind.RelationshipQuery =>
    [directedEdge (sanitizeNodeName "users".toList) (sanitizeNodeName "posts".toList)]
  | StatementKind.Unrecognized => []

/-- The column declarations written one after the other with `, ` between them. -/
def commaJoin : List Str → Str
  | [] => []
  | [c] => c
  | c :: d :: rest => c ++ ", ".toList ++ commaJoin (d :: rest)

/-- The statement `CREATE TABLE <name> (<c1>, ..., <cN>);`. -/
def createStatement (name : Str) (columns : List Str) : Str :=
  "CREATE TABLE ".toList ++ name ++ " (".toList ++ commaJoin columns ++ ");".toList

/-- Apply `f` to the last element of a list. -/
def mapLast {α : Type} (f : α → α) : List α → List α
  | [] => []
  | [x] => [f x]
  | x :: y :: rest => x :: mapLast f (y :: rest)

/-! ## Scenario 1 and the column list of a schema definition -/

/-- C1: on `CREATE TABLE user (id INT, name VARCHAR(50));` the loop of `main` builds, from the
fresh graph, the nodes `user`, `id_INT`, `name_VARCHAR` and the two edges from `user` to the
latter two; the node `name_VARCHAR_50_` of the scenario is not among them, because the
statement is split at every `(` and only the piece up to the second one is read. -/
theorem scenario1_graph (caseTable : Char → Char) :
    (buildGraph caseTable ["CREATE TABLE user (id INT, name VARCHAR(50));".toList]).nodeNames
        = ["user".toList, "id_INT".toList, "name_VARCHAR".toList]
      ∧ (buildGraph caseTable ["CREATE TABLE user (id INT, name VARCHAR(50));".toList]).edgePairs
        = [("user".toList, "id_INT".toList), ("user".toList, "name_VARCHAR".toList)]
      ∧ "name_VARCHAR_50_".toList ∉
        (buildGraph caseTable ["CREATE TABLE user (id INT, name VARCHAR(50));".toList]).nodeNames := by
  refine ⟨by rfl, by rfl, ?_⟩
  have h : (buildGraph caseTable ["CREATE TABLE user (id INT, name VARCHAR(50));".toList]).nodeNames
      = ["user".toList, "id_INT".toList, "name_VARCHAR".toList] := by rfl
  rw [h]
  decide

/-- C2: the first statement hard-coded in `main` declares three columns, and
`parseCreateStatement` returns two attributes, the second one cut at the `(` of
`VARCHAR(50)`; the third declaration is lost. -/
theorem parseCreateStatement_main_first :
    parseCreateStatement
        "CREATE TABLE user (id INT, name VARCHAR(50), email VARCHAR(100));".toList
      = ("user".toList, ["id INT".toList, "name VARCHAR".toList]) := by
  rfl

/-! ## Relationship queries -/

/-- C3: whatever the statement and the graph, `parseSelectStatement` appends the one edge
`users -> posts`; on a query over `a`, `b`, `c` the fresh graph gets that edge and neither
`a -> b` nor `b -> c`. -/
theorem parseSelectStatement_edges :
    (∀ (stmt : Str) (g : Graph),
        (parseSelectStatement stmt g).edges
          = g.edges ++ [directedEdge "users".toList "posts".toList])
      ∧ (parseSelectStatement
          "SELECT * FROM a JOIN b ON a.id = b.a_id JOIN c ON b.id = c.b_id;".toList
          newGraph).edgePairs = [("users".toList, "posts".toList)] := by
  refine ⟨?_, by rfl⟩
  intro stmt g
  rfl

/-- C4: after the three statements hard-coded in `main` the graph holds the edge
`users -> posts`, and `users` is not a node: `parseSelectStatement` adds edges without
adding their endpoints. -/
theorem main_edge_without_node (caseTable : Char → Char) :
    ("users".toList, "posts".toList) ∈ (buildGraph caseTable sqlStatements).edgePairs
      ∧ "users".toList ∉ (buildGraph caseTable sqlStatements).nodeNames := by
  have he : (buildGraph caseTable sqlStatements).edgePairs
      = [("user".toList, "id_INT".toList), ("user".toList, "name_VARCHAR".toList),
         ("posts".toList, "id_INT".toList), ("posts".toList, "title_VARCHAR".toList),
         ("users".toList, "posts".toList)] := by rfl
  have hn : (buildGraph caseTable sqlStatements).nodeNames
      = ["user".toList, "id_INT".toList, "name_VARCHAR".toList, "posts".toList,
         "title_VARCHAR".toList] := by rfl
  rw [he, hn]
  decide


/-! ## Applying a table twice -/

theorem Attrs.add_add (k v : Str) (a : Attrs) :
    Attrs.add k v (Attrs.add k v a) = Attrs.add k v a := by
  induction a with
  | nil => simp [Attrs.add]
  | cons p rest ih =>
    obtain ⟨k', v'⟩ := p
    by_cases h : k' = k
    · simp [Attrs.add, h]
    · simp [Attrs.add, h, ih]

theorem Nodes.add_tableNode_twice (name : Str) (ns : List Node) :
    Nodes.add (tableNode name) (Nodes.add (tableNode name) ns) = Nodes.add (tableNode name) ns := by
  induction ns with
  | nil => simp [Nodes.add, tableNode, Attrs.extend, Attrs.add]
  | cons m ms ih =>
    by_cases h : m.name = name
    · simp [Nodes.add, tableNode, h, Attrs.extend, Attrs.add_add]
    · simp [Nodes.add, tableNode, h]
      simpa [tableNode] using ih

theorem Nodes.add_columnNode_of_mem (name : Str) (ns : List Node)
    (h : name ∈ ns.map Node.name) : Nodes.add (columnNode name) ns = ns := by
  induction ns with
  | nil => simp at h
  | cons m ms ih =>
    obtain ⟨mn, ma⟩ := m
    by_cases hm : mn = name
    · simp [Nodes.add, columnNode, hm, Attrs.extend]
    · have : name ∈ ms.map Node.name := by
        simp only [List.map_cons, List.mem_cons] at h
        rcases h with h | h
        · exact absurd h.symm hm
        · exact h
      simp [Nodes.add, columnNode, hm]
      simpa [columnNode] using ih this

theorem Nodes.names_add (n : Node) (ns : List Node) :
    (Nodes.add n ns).map Node.name
      = if n.name ∈ ns.map Node.name then ns.map Node.name else ns.map Node.name ++ [n.name] := by
  induction ns with
  | nil => simp [Nodes.add]
  | cons m ms ih =>
    by_cases hm : m.name = n.name
    · simp [Nodes.add, hm]
    · have hm' : ¬ n.name = m.name := fun h => hm h.symm
      simp only [Nodes.add, hm, if_false, List.map_cons, ih, List.mem_cons, hm', false_or]
      split <;> simp

theorem Nodes.mem_names_add (n : Node) (ns : List Node) :
    n.name ∈ (Nodes.add n ns).map Node.name := by
  rw [Nodes.names_add]
  split
  · assumption
  · simp

theorem Nodes.names_subset_add (n : Node) (ns : List Node) (x : Str)
    (hx : x ∈ ns.map Node.name) : x ∈ (Nodes.add n ns).map Node.name := by
  rw [Nodes.names_add]
  split
  · exact hx
  · exact List.mem_append_left _ hx

theorem Nodes.add_fixed_step (n : Node) (cn : Str) (ns : List Node)
    (h : Nodes.add n ns = ns) :
    Nodes.add n (Nodes.add (columnNode cn) ns) = Nodes.add (columnNode cn) ns := by
  induction ns with
  | nil => simp [Nodes.add] at h
  | cons m ms ih =>
    obtain ⟨mn, ma⟩ := m
    obtain ⟨nn, na⟩ := n
    by_cases hn : mn = nn
    · subst hn
      simp only [Nodes.add, if_true, List.cons.injEq, and_true, Node.mk.injEq, true_and] at h
      by_cases hcm : mn = cn
      · subst hcm
        simp [Nodes.add, columnNode, Attrs.extend]
        simpa [Attrs.extend] using h
      · simp [Nodes.add, columnNode, hcm]
        simpa [Attrs.extend] using h
    · simp only [Nodes.add, hn, if_false, List.cons.injEq, true_and] at h
      by_cases hcm : mn = cn
      · subst hcm
        simp [Nodes.add, columnNode, Attrs.extend, hn, h]
      · simp only [Nodes.add, columnNode, hcm, hn, if_false, List.cons.injEq, true_and]
        exact ih h

theorem addColumnNodes_names_subset (attributes : List Str) (ns : List Node) (x : Str)
    (hx : x ∈ ns.map Node.name) : x ∈ (addColumnNodes attributes ns).map Node.name := by
  induction attributes generalizing ns with
  | nil => exact hx
  | cons a rest ih =>
    exact ih _ (Nodes.names_subset_add _ _ _ hx)

theorem addColumnNodes_mem_names (attributes : List Str) (ns : List Node) (a : Str)
    (ha : a ∈ attributes) :
    sanitizeNodeName a ∈ (addColumnNodes attributes ns).map Node.name := by
  induction attributes generalizing ns with
  | nil => simp at ha
  | cons b rest ih =>
    rcases List.mem_cons.mp ha with h | h
    · subst h
      exact addColumnNodes_names_subset rest _ _ (Nodes.mem_names_add (columnNode _) ns)
    · exact ih _ h

theorem addColumnNodes_fixed (n : Node) (attributes : List Str) (ns : List Node)
    (h : Nodes.add n ns = ns) :
    Nodes.add n (addColumnNodes attributes ns) = addColumnNodes attributes ns := by
  induction attributes generalizing ns with
  | nil => exact h
  | cons a rest ih => exact ih _ (Nodes.add_fixed_step n _ ns h)

theorem addColumnNodes_of_present (attributes : List Str) (ns : List Node)
    (h : ∀ a ∈ attributes, sanitizeNodeName a ∈ ns.map Node.name) :
    addColumnNodes attributes ns = ns := by
  induction attributes with
  | nil => rfl
  | cons a rest ih =>
    have ha : Nodes.add (columnNode (sanitizeNodeName a)) ns = ns :=
      Nodes.add_columnNode_of_mem _ _ (h a (List.mem_cons_self _ _))
    show addColumnNodes rest (Nodes.add (columnNode (sanitizeNodeName a)) ns) = ns
    rw [ha]
    exact ih (fun b hb => h b (List.mem_cons_of_mem _ hb))

theorem Relations.add_of_mem (p c : Str) (rel : List (Str × Str)) (h : (p, c) ∈ rel) :
    Relations.add p c rel = rel := by
  simp [Relations.add, h]

theorem Relations.mem_add (p c : Str) (rel : List (Str × Str)) :
    (p, c) ∈ Relations.add p c rel := by
  unfold Relations.add
  split
  · assumption
  · simp

theorem Relations.subset_add (p c : Str) (rel : List (Str × Str)) (x : Str × Str)
    (hx : x ∈ rel) : x ∈ Relations.add p c rel := by
  unfold Relations.add
  split
  · exact hx
  · exact List.mem_append_left _ hx

theorem addColumnRelations_subset (attributes : List Str) (rel : List (Str × Str))
    (x : Str × Str) (hx : x ∈ rel) : x ∈ addColumnRelations attributes rel := by
  induction attributes generalizing rel with
  | nil => exact hx
  | cons a rest ih => exact ih _ (Relations.subset_add _ _ _ _ hx)

theorem addColumnRelations_mem (attributes : List Str) (rel : List (Str × Str)) (a : Str)
    (ha : a ∈ attributes) :
    ("UMLDiagram".toList, sanitizeNodeName a) ∈ addColumnRelations attributes rel := by
  induction attributes generalizing rel with
  | nil => simp at ha
  | cons b rest ih =>
    rcases List.mem_cons.mp ha with h | h
    · subst h
      exact addColumnRelations_subset rest _ _ (Relations.mem_add _ _ rel)
    · exact ih _ h

theorem addColumnRelations_of_present (attributes : List Str) (rel : List (Str × Str))
    (h : ∀ a ∈ attributes, ("UMLDiagram".toList, sanitizeNodeName a) ∈ rel) :
    addColumnRelations attributes rel = rel := by
  induction attributes with
  | nil => rfl
  | cons a rest ih =>
    show addColumnRelations rest (Relations.add "UMLDiagram".toList (sanitizeNodeName a) rel) = rel
    rw [Relations.add_of_mem _ _ _ (h a (List.mem_cons_self _ _))]
    exact ih (fun b hb => h b (List.mem_cons_of_mem _ hb))

/-- The loop of `addTableToGraph`, field by field. -/
theorem addTable_loop (nodeName : Str) (attributes : List Str) (g : Graph) :
    attributes.foldl
        (fun acc attr =>
          (acc.AddNode "UMLDiagram".toList (sanitizeNodeName attr) []).AddEdge nodeName
            (sanitizeNodeName attr) true [])
        g
      = { g with
          nodes := addColumnNodes attributes g.nodes
          edges := g.edges ++ attributes.map (fun a => directedEdge nodeName (sanitizeNodeName a))
          relations := addColumnRelations attributes g.relations } := by
  induction attributes generalizing g with
  | nil => simp [addColumnNodes, addColumnRelations]
  | cons a rest ih =>
    rw [List.foldl_cons, ih]
    simp [Graph.AddNode, Graph.AddEdge, addColumnNodes, addColumnRelations, directedEdge,
      Attrs.extend, columnNode]

/-- The graph `addTableToGraph` returns, field by field. -/
theorem addTableToGraph_eq (g : Graph) (tableName : Str) (attributes : List Str) :
    addTableToGraph g tableName attributes
      = { g with
          nodes := addColumnNodes attributes (Nodes.add (tableNode (sanitizeNodeName tableName)) g.nodes)
          edges := g.edges ++
            attributes.map (fun a => directedEdge (sanitizeNodeName tableName) (sanitizeNodeName a))
          relations := addColumnRelations attributes
            (Relations.add "UMLDiagram".toList (sanitizeNodeName tableName) g.relations) } := by
  unfold addTableToGraph
  simp only []
  rw [addTable_loop]
  simp [Graph.AddNode, tableNode, Attrs.extend, Attrs.add]


/-- C5, as stated, fails: on the fresh graph, table `t` with the one attribute `a` applied
twice gives a graph different from applying it once. -/
theorem addTableToGraph_twice_ne_once :
    addTableToGraph (addTableToGraph newGraph "t".toList ["a".toList]) "t".toList ["a".toList]
      ≠ addTableToGraph newGraph "t".toList ["a".toList] := by
  decide

/-- C5, amended: applying the same table a second time leaves the nodes, the parent/child
relation and the graph header as they were after the first time, and appends the edges
from the table to each attribute once more; the two graphs are equal exactly when the
attribute list is empty. -/
theorem addTableToGraph_twice (g : Graph) (tableName : Str) (attributes : List Str) :
    (addTableToGraph (addTableToGraph g tableName attributes) tableName attributes).nodes
        = (addTableToGraph g tableName attributes).nodes
      ∧ (addTableToGraph (addTableToGraph g tableName attributes) tableName attributes).relations
        = (addTableToGraph g tableName attributes).relations
      ∧ (addTableToGraph (addTableToGraph g tableName attributes) tableName attributes).name
        = (addTableToGraph g tableName attributes).name
      ∧ (addTableToGraph (addTableToGraph g tableName attributes) tableName attributes).directed
        = (addTableToGraph g tableName attributes).directed
      ∧ (addTableToGraph (addTableToGraph g tableName attributes) tableName attributes).strict
        = (addTableToGraph g tableName attributes).strict
      ∧ (addTableToGraph (addTableToGraph g tableName attributes) tableName attributes).edges
        = (addTableToGraph g tableName attributes).edges ++
          attributes.map
            (fun a => directedEdge (sanitizeNodeName tableName) (sanitizeNodeName a))
      ∧ (addTableToGraph (addTableToGraph g tableName attributes) tableName attributes
          = addTableToGraph g tableName attributes ↔ attributes = []) := by
  have hn : (addTableToGraph (addTableToGraph g tableName attributes) tableName attributes).nodes
      = (addTableToGraph g tableName attributes).nodes := by
    rw [addTableToGraph_eq (addTableToGraph g tableName attributes), addTableToGraph_eq g]
    show addColumnNodes attributes (Nodes.add (tableNode (sanitizeNodeName tableName))
        (addColumnNodes attributes (Nodes.add (tableNode (sanitizeNodeName tableName)) g.nodes)))
      = addColumnNodes attributes (Nodes.add (tableNode (sanitizeNodeName tableName)) g.nodes)
    rw [addColumnNodes_fixed _ _ _ (Nodes.add_tableNode_twice _ _)]
    exact addColumnNodes_of_present _ _ (fun a ha => addColumnNodes_mem_names _ _ a ha)
  have hr : (addTableToGraph (addTableToGraph g tableName attributes) tableName attributes).relations
      = (addTableToGraph g tableName attributes).relations := by
    rw [addTableToGraph_eq (addTableToGraph g tableName attributes), addTableToGraph_eq g]
    show addColumnRelations attributes (Relations.add "UMLDiagram".toList
        (sanitizeNodeName tableName) (addColumnRelations attributes
          (Relations.add "UMLDiagram".toList (sanitizeNodeName tableName) g.relations)))
      = addColumnRelations attributes
          (Relations.add "UMLDiagram".toList (sanitizeNodeName tableName) g.relations)
    rw [Relations.add_of_mem _ _ _
      (addColumnRelations_subset _ _ _ (Relations.mem_add _ _ _))]
    exact addColumnRelations_of_present _ _ (fun a ha => addColumnRelations_mem _ _ a ha)
  have he : (addTableToGraph (addTableToGraph g tableName attributes) tableName attributes).edges
      = (addTableToGraph g tableName attributes).edges ++
          attributes.map
            (fun a => directedEdge (sanitizeNodeName tableName) (sanitizeNodeName a)) := by
    rw [addTableToGraph_eq (addTableToGraph g tableName attributes)]
  have h1 : (addTableToGraph (addTableToGraph g tableName attributes) tableName attributes).name
      = (addTableToGraph g tableName attributes).name := by
    rw [addTableToGraph_eq (addTableToGraph g tableName attributes)]
  have h2 : (addTableToGraph (addTableToGraph g tableName attributes) tableName attributes).directed
      = (addTableToGraph g tableName attributes).directed := by
    rw [addTableToGraph_eq (addTableToGraph g tableName attributes)]
  have h3 : (addTableToGraph (addTableToGraph g tableName attributes) tableName attributes).strict
      = (addTableToGraph g tableName attributes).strict := by
    rw [addTableToGraph_eq (addTableToGraph g tableName attributes)]
  refine ⟨hn, hr, h1, h2, h3, he, ?_, ?_⟩
  · intro heq
    have hlen := congrArg (fun x => x.edges.length) heq
    simp only [he, List.length_append, List.length_map] at hlen
    exact List.length_eq_zero.mp (by omega)
  · intro hnil
    subst hnil
    have he' := he
    simp only [List.map_nil, List.append_nil] at he'
    cases hA : addTableToGraph (addTableToGraph g tableName []) tableName [] with
    | mk a1 a2 a3 a4 a5 a6 =>
      cases hB : addTableToGraph g tableName [] with
      | mk b1 b2 b3 b4 b5 b6 =>
        rw [hA, hB] at hn hr h1 h2 h3 he'
        simp only at hn hr h1 h2 h3 he'
        simp [hn, hr, h1, h2, h3, he']


/-! ## Classification -/

theorem HasPrefix_Map (f : Char → Char) (s p : Str) :
    HasPrefix (Map f s) p = decide (Map f (s.take p.length) = p) := by
  have hmt : (s.take p.length).map f = (s.map f).take p.length := by
    induction s generalizing p with
    | nil => simp
    | cons c cs ih =>
      cases p with
      | nil => simp
      | cons q qs => simp [ih qs]
  unfold HasPrefix Map
  rw [hmt]
  by_cases h : (s.map f).take p.length = p
  · have hl : p.length ≤ s.length := by
      have := congrArg List.length h
      simp only [List.length_map, List.length_take] at this
      omega
    simp [h, hl]
  · simp [h]

/-- C6, as stated, fails: the statement `  CREATE TABLE t (a);`, which begins with `CREATE`
once its leading white space is removed, is dispatched to the schema-definition branch
under no case table. -/
theorem classify_leading_space_unrecognized :
    ¬ ∃ caseTable : Char → Char,
      classify caseTable "  CREATE TABLE t (a);".toList = StatementKind.SchemaDefinition := by
  rintro ⟨caseTable, h⟩
  have hu : classify caseTable "  CREATE TABLE t (a);".toList = StatementKind.Unrecognized := by
    rfl
  rw [hu] at h
  cases h

/-- C6, amended: classification is case-insensitive matching of the first six characters of
the statement as it stands, leading white space included: upper-cased, they spell `CREATE`
for the schema-definition branch, otherwise `SELECT` for the relationship-query branch,
otherwise the statement is unrecognized; `  CREATE TABLE t (a);` is unrecognized and
`create table t (a);` is a schema definition. -/
theorem classify_first_six (caseTable : Char → Char) (s : Str) :
    classify caseTable s
        = (if ToUpper caseTable (s.take 6) = "CREATE".toList then StatementKind.SchemaDefinition
           else if ToUpper caseTable (s.take 6) = "SELECT".toList then
             StatementKind.RelationshipQuery
           else StatementKind.Unrecognized)
      ∧ classify caseTable "  CREATE TABLE t (a);".toList = StatementKind.Unrecognized
      ∧ classify caseTable "create table t (a);".toList = StatementKind.SchemaDefinition := by
  refine ⟨?_, by rfl, by rfl⟩
  unfold classify ToUpper
  simp only [HasPrefix_Map]
  have h6 : "CREATE".toList.length = 6 := by rfl
  have h6' : "SELECT".toList.length = 6 := by rfl
  rw [h6, h6']
  simp only [decide_eq_true_eq]

/-! ## Degenerate and lower-case schema definitions -/

/-- C7: on `CREATE TABLE t ();` `parseCreateStatement` returns one attribute, the empty
string, and `addTableToGraph` then adds a column node with the empty name and an edge from
`t` to it. -/
theorem parseCreateStatement_empty_body :
    parseCreateStatement "CREATE TABLE t ();".toList = ("t".toList, [[]])
      ∧ (addTableToGraph newGraph "t".toList
            (parseCreateStatement "CREATE TABLE t ();".toList).2).nodeNames = ["t".toList, []]
      ∧ (addTableToGraph newGraph "t".toList
            (parseCreateStatement "CREATE TABLE t ();".toList).2).edgePairs = [("t".toList, [])] := by
  refine ⟨by rfl, by rfl, by rfl⟩

/-- C8: the statement `create table user (id INT);` is classified as a schema definition,
and `parseCreateStatement` returns the table name `create table user`: the keyword phrase
is removed only when it is written in upper case. -/
theorem parseCreateStatement_lowercase_keyword :
    ∀ caseTable : Char → Char,
      classify caseTable "create table user (id INT);".toList = StatementKind.SchemaDefinition
        ∧ (parseCreateStatement "create table user (id INT);".toList).1
            = "create table user".toList
        ∧ (parseCreateStatement "create table user (id INT);".toList).1 ≠ "user".toList
        ∧ (parseCreateStatement "CREATE TABLE user (id INT);".toList).1 = "user".toList := by
  intro caseTable
  refine ⟨by rfl, by rfl, by decide, by rfl⟩


/-! ## Name sanitization -/

theorem sanitizeRune_eq (c : Char) : sanitizeRune c = if isAlnum c then c else '_' := by
  unfold sanitizeRune isAlnum
  have hA : ∀ d : Char, (d ≤ c) = (d.toNat ≤ c.toNat) := by
    intro d
    rfl
  have hB : ∀ d : Char, (c ≤ d) = (c.toNat ≤ d.toNat) := by
    intro d
    rfl
  simp only [hA, hB, Bool.or_eq_true, Bool.and_eq_true, decide_eq_true_eq]
  have e1 : 'A'.toNat = 65 := by rfl
  have e2 : 'Z'.toNat = 90 := by rfl
  have e3 : 'a'.toNat = 97 := by rfl
  have e4 : 'z'.toNat = 122 := by rfl
  have e5 : '0'.toNat = 48 := by rfl
  have e6 : '9'.toNat = 57 := by rfl
  rw [e1, e2, e3, e4, e5, e6]
  split_ifs <;> first | rfl | omega


theorem sanitizeNodeName_eq_map (s : Str) : sanitizeNodeName s = s.map sanitizeRune := by
  unfold sanitizeNodeName Map
  induction s with
  | nil => rfl
  | cons c cs ih =>
    by_cases h : c = ' '
    · subst h
      simp only [ReplaceAll, if_true, List.map_append, List.map_cons]
      rw [ih]
      rfl
    · simp only [ReplaceAll, h, if_false, List.map_cons]
      rw [ih]

theorem sanitizeRune_of_isSpace (c : Char) (h : isSpace c = true) : sanitizeRune c = '_' := by
  unfold isSpace at h
  simp only [Bool.or_eq_true, Bool.and_eq_true, beq_iff_eq, decide_eq_true_eq] at h
  unfold sanitizeRune
  split_ifs <;> first | rfl | omega

/-- C9, as stated, fails: the two spaces of `a  b` give two underscores, not one. -/
theorem sanitizeNodeName_two_spaces :
    sanitizeNodeName "a  b".toList = "a__b".toList
      ∧ sanitizeNodeName "a  b".toList ≠ "a_b".toList := by
  refine ⟨by rfl, by decide⟩

/-- C9, amended: every white-space character of the name becomes its own underscore, so a
run of `k` white-space characters contributes exactly `k` underscores. -/
theorem sanitizeNodeName_whitespace_run (a w b : Str) (hw : ∀ c ∈ w, isSpace c = true) :
    sanitizeNodeName (a ++ w ++ b)
      = sanitizeNodeName a ++ List.replicate w.length '_' ++ sanitizeNodeName b := by
  simp only [sanitizeNodeName_eq_map, List.map_append]
  congr 2
  apply List.eq_replicate_iff.mpr
  refine ⟨by simp, ?_⟩
  intro c hc
  obtain ⟨d, hd, rfl⟩ := List.mem_map.mp hc
  exact sanitizeRune_of_isSpace d (hw d hd)

/-- A run of two spaces between `a` and `b` gives two underscores. -/
theorem sanitizeNodeName_whitespace_run_witness :
    (∀ c ∈ "  ".toList, isSpace c = true)
      ∧ sanitizeNodeName ("a".toList ++ "  ".toList ++ "b".toList)
        = sanitizeNodeName "a".toList ++ List.replicate "  ".toList.length '_'
            ++ sanitizeNodeName "b".toList :=
  ⟨by decide, sanitizeNodeName_whitespace_run "a".toList "  ".toList "b".toList (by decide)⟩

/-- C10: `sanitizeNodeName` is the character-wise map that keeps the characters of
`[A-Za-z0-9]` and puts `_` for every other one: the result is as long as the name, its
`i`-th character is the `i`-th character of the name when that is in the class and `_`
otherwise, every character of the result is in the class or is `_`, and the replacement of
spaces that comes first changes nothing. -/
theorem sanitizeNodeName_charwise (s : Str) :
    (sanitizeNodeName s).length = s.length
      ∧ (∀ i : Nat,
          (sanitizeNodeName s)[i]? = (s[i]?).map (fun c => if isAlnum c = true then c else '_'))
      ∧ (sanitizeNodeName s).all (fun c => isAlnum c || c == '_') = true
      ∧ sanitizeNodeName s = Map sanitizeRune s := by
  have hfun : sanitizeRune = fun c => if isAlnum c = true then c else '_' :=
    funext sanitizeRune_eq
  refine ⟨?_, ?_, ?_, ?_⟩
  · rw [sanitizeNodeName_eq_map, List.length_map]
  · intro i
    rw [sanitizeNodeName_eq_map, List.getElem?_map, hfun]
  · rw [sanitizeNodeName_eq_map, List.all_eq_true]
    intro c hc
    obtain ⟨d, _, rfl⟩ := List.mem_map.mp hc
    rw [sanitizeRune_eq]
    by_cases hd : isAlnum d = true
    · simp [hd]
    · have hu : isAlnum '_' = false := by rfl
      simp [hd, hu]
  · rw [sanitizeNodeName_eq_map]
    rfl


/-! ## Relationship queries without tables, scenario 2, unrecognized statements -/

/-- C11: on `SELECT 1;`, which has no `FROM` clause, `extractTableNamesFromSelect` returns
`users`, `posts`, and `parseSelectStatement` appends the edge `users -> posts` to the fresh
graph instead of leaving it unchanged. -/
theorem parseSelectStatement_no_from :
    extractTableNamesFromSelect "SELECT 1;".toList = ["users".toList, "posts".toList]
      ∧ (parseSelectStatement "SELECT 1;".toList newGraph).edgePairs
        = [("users".toList, "posts".toList)]
      ∧ parseSelectStatement "SELECT 1;".toList newGraph ≠ newGraph := by
  refine ⟨by rfl, by rfl, by decide⟩

/-- C12: on the statement of scenario 2 the loop of `main` builds, from the fresh graph, a
graph whose only edge goes from `users` to `posts`. -/
theorem scenario2_graph (caseTable : Char → Char) :
    (buildGraph caseTable
        ["SELECT users.name, posts.title FROM users INNER JOIN posts ON users.id = posts.user_id;".toList]).edges
      = [directedEdge "users".toList "posts".toList] := by
  rfl

/-- C13: a statement whose upper-cased text begins with neither `CREATE` nor `SELECT` goes
through one iteration of the loop of `main` without any change to the graph. -/
theorem processStatement_unrecognized (caseTable : Char → Char) (g : Graph) (s : Str)
    (hc : HasPrefix (ToUpper caseTable s) "CREATE".toList = false)
    (hs : HasPrefix (ToUpper caseTable s) "SELECT".toList = false) :
    processStatement caseTable g s = g
      ∧ (processStatement caseTable g s).nodes = g.nodes
      ∧ (processStatement caseTable g s).edges = g.edges := by
  have hk : classify caseTable s = StatementKind.Unrecognized := by
    unfold classify
    rw [hc, hs]
    rfl
  have h : processStatement caseTable g s = g := by
    unfold processStatement
    rw [hk]
  rw [h]
  exact ⟨rfl, rfl, rfl⟩

/-- The statement `DROP TABLE user;` leaves the graph built from scenario 1 as it is. -/
theorem processStatement_unrecognized_witness :
    HasPrefix (ToUpper id "DROP TABLE user;".toList) "CREATE".toList = false
      ∧ HasPrefix (ToUpper id "DROP TABLE user;".toList) "SELECT".toList = false
      ∧ processStatement id
          (buildGraph id ["CREATE TABLE user (id INT, name VARCHAR(50));".toList])
          "DROP TABLE user;".toList
        = buildGraph id ["CREATE TABLE user (id INT, name VARCHAR(50));".toList] :=
  ⟨by decide, by decide,
    (processStatement_unrecognized id
      (buildGraph id ["CREATE TABLE user (id INT, name VARCHAR(50));".toList])
      "DROP TABLE user;".toList (by decide) (by decide)).1⟩

/-! ## Schema definitions without a parenthesis -/

theorem Split_ne_nil (sep : Char) (s : Str) : Split sep s ≠ [] := by
  cases s with
  | nil => simp [Split]
  | cons c cs =>
    unfold Split
    split
    · simp
    · split <;> simp

theorem Split_of_not_mem (sep : Char) (s : Str) (h : sep ∉ s) : Split sep s = [s] := by
  induction s with
  | nil => rfl
  | cons c cs ih =>
    have hc : ¬ c = sep := fun e => h (by simp [e])
    have hcs : sep ∉ cs := fun e => h (List.mem_cons_of_mem _ e)
    simp [Split, hc, ih hcs]

/-- C14: for a statement without `(`, `parseCreateStatement` returns the statement without a
leading `CREATE TABLE`, trimmed of white space, as the table name, and no attribute. -/
theorem parseCreateStatement_no_paren (stmt : Str) (h : '(' ∉ stmt) :
    parseCreateStatement stmt
      = (TrimSpace (TrimPrefix stmt "CREATE TABLE".toList), []) := by
  unfold parseCreateStatement
  rw [Split_of_not_mem '(' stmt h]
  simp

/-- The statement `CREATE TABLE user;` has the table name `user;` and no attribute. -/
theorem parseCreateStatement_no_paren_witness :
    '(' ∉ "CREATE TABLE user;".toList
      ∧ parseCreateStatement "CREATE TABLE user;".toList
        = (TrimSpace (TrimPrefix "CREATE TABLE user;".toList "CREATE TABLE".toList), [])
      ∧ TrimSpace (TrimPrefix "CREATE TABLE user;".toList "CREATE TABLE".toList)
        = "user;".toList :=
  ⟨by decide, parseCreateStatement_no_paren "CREATE TABLE user;".toList (by decide), by rfl⟩

/-! ## Edge additivity and idempotent sanitization -/

/-- C17: the statements of scenarios 1, 2 and 3 processed in sequence from the fresh graph
give as many edges, three, as the three of them processed alone give together. -/
theorem scenarios_edge_count (caseTable : Char → Char) :
    (buildGraph caseTable
        ["CREATE TABLE user (id INT, name VARCHAR(50));".toList,
         "SELECT users.name, posts.title FROM users INNER JOIN posts ON users.id = posts.user_id;".toList,
         "DROP TABLE user;".toList]).edges.length
      = (buildGraph caseTable ["CREATE TABLE user (id INT, name VARCHAR(50));".toList]).edges.length
        + (buildGraph caseTable
            ["SELECT users.name, posts.title FROM users INNER JOIN posts ON users.id = posts.user_id;".toList]).edges.length
        + (buildGraph caseTable ["DROP TABLE user;".toList]).edges.length
      ∧ (buildGraph caseTable
        ["CREATE TABLE user (id INT, name VARCHAR(50));".toList,
         "SELECT users.name, posts.title FROM users INNER JOIN posts ON users.id = posts.user_id;".toList,
         "DROP TABLE user;".toList]).edges.length = 3 := by
  refine ⟨by rfl, by rfl⟩

theorem sanitizeRune_sanitizeRune (c : Char) : sanitizeRune (sanitizeRune c) = sanitizeRune c := by
  unfold sanitizeRune
  split_ifs <;> rfl

/-- C19: `sanitizeNodeName` is idempotent: a sanitized name is sanitized to itself. -/
theorem sanitizeNodeName_idempotent (s : Str) :
    sanitizeNodeName (sanitizeNodeName s) = sanitizeNodeName s := by
  rw [sanitizeNodeName_eq_map, sanitizeNodeName_eq_map, List.map_map]
  apply List.map_congr_left
  intro c _
  exact sanitizeRune_sanitizeRune c


/-! ## The effect of applying a table -/

theorem Nodes.add_of_not_mem (n : Node) (ns : List Node) (h : n.name ∉ ns.map Node.name) :
    Nodes.add n ns = ns ++ [n] := by
  induction ns with
  | nil => rfl
  | cons m ms ih =>
    have hm : ¬ m.name = n.name := fun e => h (by simp [e])
    have hms : n.name ∉ ms.map Node.name := fun e => h (by simp [e])
    simp [Nodes.add, hm, ih hms]

theorem Nodes.names_add_append (n : Node) (ns : List Node) :
    ∃ more, (Nodes.add n ns).map Node.name = ns.map Node.name ++ more := by
  rw [Nodes.names_add]
  split
  · exact ⟨[], by simp⟩
  · exact ⟨[n.name], rfl⟩

theorem Nodes.mem_add_of_ne (n m : Node) (ns : List Node) (hm : m ∈ ns)
    (hne : m.name ≠ n.name) : m ∈ Nodes.add n ns := by
  induction ns with
  | nil => simp at hm
  | cons x xs ih =>
    rcases List.mem_cons.mp hm with h | h
    · subst h
      simp [Nodes.add, hne]
    · by_cases hx : x.name = n.name
      · simp [Nodes.add, hx, h]
      · simp [Nodes.add, hx, ih h]

theorem Nodes.mem_add_columnNode (c : Str) (m : Node) (ns : List Node) (hm : m ∈ ns) :
    m ∈ Nodes.add (columnNode c) ns := by
  by_cases h : c ∈ ns.map Node.name
  · rw [Nodes.add_columnNode_of_mem c ns h]
    exact hm
  · rw [Nodes.add_of_not_mem (columnNode c) ns h]
    exact List.mem_append_left _ hm

theorem addColumnNodes_mem (attributes : List Str) (m : Node) (ns : List Node) (hm : m ∈ ns) :
    m ∈ addColumnNodes attributes ns := by
  induction attributes generalizing ns with
  | nil => exact hm
  | cons a rest ih => exact ih _ (Nodes.mem_add_columnNode _ m ns hm)

theorem addColumnNodes_names_append (attributes : List Str) (ns : List Node) :
    ∃ more, (addColumnNodes attributes ns).map Node.name = ns.map Node.name ++ more := by
  induction attributes generalizing ns with
  | nil => exact ⟨[], by simp [addColumnNodes]⟩
  | cons a rest ih =>
    obtain ⟨m1, h1⟩ := Nodes.names_add_append (columnNode (sanitizeNodeName a)) ns
    obtain ⟨m2, h2⟩ := ih (Nodes.add (columnNode (sanitizeNodeName a)) ns)
    refine ⟨m1 ++ m2, ?_⟩
    show (addColumnNodes rest (Nodes.add (columnNode (sanitizeNodeName a)) ns)).map Node.name
      = ns.map Node.name ++ (m1 ++ m2)
    rw [h2, h1, List.append_assoc]

/-- C16: `addTableToGraph` makes the sanitized table name a node, with shape `box` when it
was not a node before, makes every sanitized attribute a node, and appends exactly one edge
from the table to each attribute, in order; the nodes that were there keep their place in
front of the new ones, every node other than the table's is unchanged, and the edges that
were there stay in front of the new ones. -/
theorem addTableToGraph_effect (g : Graph) (tableName : Str) (attributes : List Str) :
    sanitizeNodeName tableName ∈ (addTableToGraph g tableName attributes).nodeNames
      ∧ (sanitizeNodeName tableName ∉ g.nodeNames →
          tableNode (sanitizeNodeName tableName) ∈ (addTableToGraph g tableName attributes).nodes)
      ∧ (∀ c ∈ attributes,
          sanitizeNodeName c ∈ (addTableToGraph g tableName attributes).nodeNames)
      ∧ (addTableToGraph g tableName attributes).edges
        = g.edges ++
          attributes.map (fun c => directedEdge (sanitizeNodeName tableName) (sanitizeNodeName c))
      ∧ (∃ more, (addTableToGraph g tableName attributes).nodeNames = g.nodeNames ++ more)
      ∧ (∀ n ∈ g.nodes, n.name ≠ sanitizeNodeName tableName →
          n ∈ (addTableToGraph g tableName attributes).nodes) := by
  rw [addTableToGraph_eq]
  refine ⟨?_, ?_, ?_, rfl, ?_, ?_⟩
  · exact addColumnNodes_names_subset _ _ _
      (Nodes.mem_names_add (tableNode (sanitizeNodeName tableName)) g.nodes)
  · intro h
    apply addColumnNodes_mem
    rw [Nodes.add_of_not_mem (tableNode (sanitizeNodeName tableName)) g.nodes h]
    simp
  · intro c hc
    exact addColumnNodes_mem_names _ _ c hc
  · obtain ⟨m1, h1⟩ := Nodes.names_add_append (tableNode (sanitizeNodeName tableName)) g.nodes
    obtain ⟨m2, h2⟩ := addColumnNodes_names_append attributes
      (Nodes.add (tableNode (sanitizeNodeName tableName)) g.nodes)
    refine ⟨m1 ++ m2, ?_⟩
    show (addColumnNodes attributes
        (Nodes.add (tableNode (sanitizeNodeName tableName)) g.nodes)).map Node.name
      = g.nodes.map Node.name ++ (m1 ++ m2)
    rw [h2, h1, List.append_assoc]
  · intro n hn hne
    exact addColumnNodes_mem _ _ _ (Nodes.mem_add_of_ne _ n g.nodes hn hne)

/-- On the graph of scenario 1, table `posts` with the attributes `id INT`, `title`. -/
theorem addTableToGraph_effect_witness :
    sanitizeNodeName "posts".toList ∉
        (buildGraph id ["CREATE TABLE user (id INT, name VARCHAR(50));".toList]).nodeNames
      ∧ tableNode (sanitizeNodeName "posts".toList) ∈
        (addTableToGraph (buildGraph id ["CREATE TABLE user (id INT, name VARCHAR(50));".toList])
          "posts".toList ["id INT".toList, "title".toList]).nodes
      ∧ (addTableToGraph (buildGraph id ["CREATE TABLE user (id INT, name VARCHAR(50));".toList])
          "posts".toList ["id INT".toList, "title".toList]).edgePairs
        = [("user".toList, "id_INT".toList), ("user".toList, "name_VARCHAR".toList),
           ("posts".toList, "id_INT".toList), ("posts".toList, "title".toList)] :=
  ⟨by decide,
    (addTableToGraph_effect
      (buildGraph id ["CREATE TABLE user (id INT, name VARCHAR(50));".toList])
      "posts".toList ["id INT".toList, "title".toList]).2.1 (by decide),
    by rfl⟩


/-! ## Repeated edges -/

theorem Nodes.names_add_nodup (n : Node) (ns : List Node) (h : (ns.map Node.name).Nodup) :
    ((Nodes.add n ns).map Node.name).Nodup := by
  rw [Nodes.names_add]
  split
  · exact h
  · rename_i hn
    exact List.nodup_append.mpr ⟨h, List.nodup_singleton _, by
      intro x hx hx'
      rw [List.mem_singleton] at hx'
      subst hx'
      exact hn hx⟩

theorem addColumnNodes_names_nodup (attributes : List Str) (ns : List Node)
    (h : (ns.map Node.name).Nodup) : ((addColumnNodes attributes ns).map Node.name).Nodup := by
  induction attributes generalizing ns with
  | nil => exact h
  | cons a rest ih => exact ih _ (Nodes.names_add_nodup _ ns h)

theorem parseSelectStatement_eq (stmt : Str) (g : Graph) :
    parseSelectStatement stmt g
      = { g with
          edges := g.edges ++
            [directedEdge (sanitizeNodeName "users".toList) (sanitizeNodeName "posts".toList)] } := by
  rfl

theorem processStatement_edges (caseTable : Char → Char) (g : Graph) (stmt : Str) :
    (processStatement caseTable g stmt).edges = g.edges ++ statementEdges caseTable stmt := by
  unfold processStatement statementEdges
  cases classify caseTable stmt with
  | SchemaDefinition =>
    show (addTableToGraph g (parseCreateStatement stmt).1 (parseCreateStatement stmt).2).edges = _
    rw [addTableToGraph_eq]
  | RelationshipQuery =>
    show (parseSelectStatement stmt g).edges = _
    rw [parseSelectStatement_eq]
  | Unrecognized => simp

theorem processStatement_names_nodup (caseTable : Char → Char) (g : Graph) (stmt : Str)
    (h : g.nodeNames.Nodup) : (processStatement caseTable g stmt).nodeNames.Nodup := by
  unfold processStatement
  cases classify caseTable stmt with
  | SchemaDefinition =>
    show (addTableToGraph g (parseCreateStatement stmt).1 (parseCreateStatement stmt).2).nodeNames.Nodup
    rw [addTableToGraph_eq]
    exact addColumnNodes_names_nodup _ _ (Nodes.names_add_nodup _ _ h)
  | RelationshipQuery =>
    show (parseSelectStatement stmt g).nodeNames.Nodup
    rw [parseSelectStatement_eq]
    exact h
  | Unrecognized => exact h

theorem foldl_processStatement_edges (caseTable : Char → Char) (stmts : List Str) (g : Graph) :
    (stmts.foldl (processStatement caseTable) g).edges
      = g.edges ++ stmts.flatMap (statementEdges caseTable) := by
  induction stmts generalizing g with
  | nil => simp
  | cons s rest ih =>
    rw [List.foldl_cons, ih, processStatement_edges, List.flatMap_cons, List.append_assoc]

theorem foldl_processStatement_names_nodup (caseTable : Char → Char) (stmts : List Str)
    (g : Graph) (h : g.nodeNames.Nodup) :
    (stmts.foldl (processStatement caseTable) g).nodeNames.Nodup := by
  induction stmts generalizing g with
  | nil => exact h
  | cons s rest ih => exact ih _ (processStatement_names_nodup caseTable g s h)

/-- C15, as stated, fails: after `CREATE TABLE t (a, a);` alone the graph holds the edge
from `t` to `a` twice, under every case table. -/
theorem buildGraph_duplicate_edge :
    ¬ ∃ caseTable : Char → Char,
      (buildGraph caseTable ["CREATE TABLE t (a, a);".toList]).edgePairs.Nodup := by
  rintro ⟨caseTable, h⟩
  have he : (buildGraph caseTable ["CREATE TABLE t (a, a);".toList]).edgePairs
      = [("t".toList, "a".toList), ("t".toList, "a".toList)] := by rfl
  rw [he] at h
  revert h
  decide

/-- C15, amended: from the fresh graph, the loop of `main` collapses repeated nodes, so the
node names are pairwise distinct, and keeps repeated edges: the edges of the result are, in
order, what each statement appends, one edge per parsed attribute for a schema definition
and the edge of the relationship query; a statement processed twice has its edges twice. -/
theorem buildGraph_edges_appended (caseTable : Char → Char) (stmts : List Str) :
    (buildGraph caseTable stmts).nodeNames.Nodup
      ∧ (buildGraph caseTable stmts).edges = stmts.flatMap (statementEdges caseTable)
      ∧ (buildGraph caseTable (stmts ++ stmts)).edges
        = (buildGraph caseTable stmts).edges ++ (buildGraph caseTable stmts).edges := by
  have he : ∀ l : List Str, (buildGraph caseTable l).edges = l.flatMap (statementEdges caseTable) := by
    intro l
    unfold buildGraph
    rw [foldl_processStatement_edges]
    rfl
  refine ⟨?_, he stmts, ?_⟩
  · exact foldl_processStatement_names_nodup caseTable stmts newGraph (by
      show (List.map Node.name []).Nodup
      exact List.nodup_nil)
  · rw [he, he, List.flatMap_append]


/-! ## Round trip of a schema definition without inner parentheses -/

theorem TrimSpace_cons_space (c : Char) (p : Str) (hc : isSpace c = true) :
    TrimSpace (c :: p) = TrimSpace p := by
  simp [TrimSpace, List.dropWhile, hc]

theorem TrimSpace_concat_space (c : Char) (p : Str) (hc : isSpace c = true) :
    TrimSpace (p ++ [c]) = TrimSpace p := by
  induction p with
  | nil => simp [TrimSpace, List.dropWhile, hc]
  | cons d ds ih =>
    by_cases hd : isSpace d = true
    · rw [List.cons_append, TrimSpace_cons_space d _ hd, TrimSpace_cons_space d _ hd, ih]
    · simp [TrimSpace, List.dropWhile, hd, hc]

theorem Split_append_sep (sep : Char) (a b : Str) (ha : sep ∉ a) :
    Split sep (a ++ sep :: b) = a :: Split sep b := by
  induction a with
  | nil => simp [Split]
  | cons c cs ih =>
    have hc : ¬ c = sep := fun e => ha (by simp [e])
    have hcs : sep ∉ cs := fun e => ha (List.mem_cons_of_mem _ e)
    simp [Split, hc, ih hcs]

theorem Split_cons_sep (sep : Char) (x : Str) : Split sep (sep :: x) = [] :: Split sep x := by
  simp [Split]

theorem Split_cons_of_ne (sep c : Char) (x p : Str) (r : List Str) (hc : ¬ c = sep)
    (hX : Split sep x = p :: r) : Split sep (c :: x) = (c :: p) :: r := by
  simp [Split, hc, hX]

theorem Split_append_of_not_mem (sep : Char) (s t : Str) (ht : sep ∉ t) :
    Split sep (s ++ t) = mapLast (fun p => p ++ t) (Split sep s) := by
  induction s with
  | nil => simp [Split, mapLast, Split_of_not_mem sep t ht]
  | cons c cs ih =>
    cases hX : Split sep cs with
    | nil => exact absurd hX (Split_ne_nil sep cs)
    | cons p r =>
      rw [hX] at ih
      by_cases hc : c = sep
      · subst hc
        rw [List.cons_append, Split_cons_sep, Split_cons_sep, ih, hX]
        rfl
      · rw [Split_cons_of_ne sep c cs p r hc hX]
        cases r with
        | nil =>
          have h2 : Split sep (cs ++ t) = (p ++ t) :: [] := ih
          rw [List.cons_append, Split_cons_of_ne sep c (cs ++ t) (p ++ t) [] hc h2]
          rfl
        | cons y r2 =>
          have h2 : Split sep (cs ++ t) = p :: mapLast (fun q => q ++ t) (y :: r2) := ih
          rw [List.cons_append, Split_cons_of_ne sep c (cs ++ t) p _ hc h2]
          rfl

theorem map_TrimSpace_mapLast (c : Char) (hc : isSpace c = true) (pieces : List Str) :
    (mapLast (fun p => p ++ [c]) pieces).map TrimSpace = pieces.map TrimSpace := by
  induction pieces with
  | nil => rfl
  | cons x rest ih =>
    cases rest with
    | nil => simp [mapLast, TrimSpace_concat_space c x hc]
    | cons y r2 =>
      simp only [mapLast, List.map_cons, List.cons.injEq, true_and]
      simpa using ih

theorem map_TrimSpace_Split_cons_space (sep c : Char) (s : Str) (hc : isSpace c = true)
    (hsep : isSpace sep = false) :
    (Split sep (c :: s)).map TrimSpace = (Split sep s).map TrimSpace := by
  have hne : ¬ c = sep := by
    intro e
    rw [e, hsep] at hc
    cases hc
  cases hX : Split sep s with
  | nil => exact absurd hX (Split_ne_nil sep s)
  | cons p r => simp [Split, hne, hX, TrimSpace_cons_space c p hc]

theorem map_TrimSpace_Split_dropWhile (sep : Char) (s : Str) (hsep : isSpace sep = false) :
    (Split sep (s.dropWhile isSpace)).map TrimSpace = (Split sep s).map TrimSpace := by
  induction s with
  | nil => rfl
  | cons c cs ih =>
    by_cases hc : isSpace c = true
    · rw [List.dropWhile_cons_of_pos hc, ih, map_TrimSpace_Split_cons_space sep c cs hc hsep]
    · rw [List.dropWhile_cons_of_neg hc]

theorem map_TrimSpace_Split_rdrop (sep : Char) (s : Str) (hsep : isSpace sep = false) :
    (Split sep ((s.reverse.dropWhile isSpace).reverse)).map TrimSpace
      = (Split sep s).map TrimSpace := by
  induction s using List.reverseRecOn with
  | nil => rfl
  | append_singleton cs c ih =>
    by_cases hc : isSpace c = true
    · have hne : sep ∉ [c] := by
        intro e
        rw [List.mem_singleton] at e
        rw [e, hc] at hsep
        cases hsep
      rw [List.reverse_append, List.reverse_singleton, List.singleton_append,
        List.dropWhile_cons_of_pos hc, ih, Split_append_of_not_mem sep cs [c] hne,
        map_TrimSpace_mapLast c hc]
    · rw [List.reverse_append, List.reverse_singleton, List.singleton_append,
        List.dropWhile_cons_of_neg hc]
      simp

theorem map_TrimSpace_Split_TrimSpace (sep : Char) (s : Str) (hsep : isSpace sep = false) :
    (Split sep (TrimSpace s)).map TrimSpace = (Split sep s).map TrimSpace := by
  have h : TrimSpace s = (((s.dropWhile isSpace).reverse).dropWhile isSpace).reverse := rfl
  rw [h, map_TrimSpace_Split_rdrop sep _ hsep, map_TrimSpace_Split_dropWhile sep s hsep]


theorem TrimPrefix_append (p x : Str) : TrimPrefix (p ++ x) p = x := by
  simp [TrimPrefix, HasPrefix]

theorem TrimSuffix_append (x suf : Str) : TrimSuffix (x ++ suf) suf = x := by
  simp [TrimSuffix, HasSuffix]

theorem not_mem_commaJoin (ch : Char) (hch : ch ∉ ", ".toList) (cs : List Str)
    (h : ∀ c ∈ cs, ch ∉ c) : ch ∉ commaJoin cs := by
  induction cs with
  | nil => simp [commaJoin]
  | cons c rest ih =>
    cases rest with
    | nil => simpa [commaJoin] using h c (List.mem_cons_self _ _)
    | cons d r2 =>
      have h1 := h c (List.mem_cons_self _ _)
      have h2 := ih (fun x hx => h x (List.mem_cons_of_mem _ hx))
      simp only [commaJoin, List.mem_append, not_or]
      exact ⟨⟨h1, hch⟩, h2⟩

theorem map_TrimSpace_Split_commaJoin (cs : List Str) (hne : cs ≠ [])
    (h : ∀ c ∈ cs, ',' ∉ c) :
    (Split ',' (commaJoin cs)).map TrimSpace = cs.map TrimSpace := by
  induction cs with
  | nil => exact absurd rfl hne
  | cons c rest ih =>
    cases rest with
    | nil =>
      simp [commaJoin, Split_of_not_mem ',' c (h c (List.mem_cons_self _ _))]
    | cons d r2 =>
      have h1 := h c (List.mem_cons_self _ _)
      have h2 := ih (by simp) (fun x hx => h x (List.mem_cons_of_mem _ hx))
      have hj : commaJoin (c :: d :: r2) = c ++ ',' :: (' ' :: commaJoin (d :: r2)) := by
        simp [commaJoin]
      rw [hj, Split_append_sep ',' c _ h1, List.map_cons,
        map_TrimSpace_Split_cons_space ',' ' ' _ (by rfl) (by rfl), h2]
      rfl

/-- C18: for a table name and a non-empty list of column declarations that are trimmed of
white space and free of `(`, the declarations also free of `,`, `parseCreateStatement`
gives back the name and the declarations from the statement written out of them. -/
theorem parseCreateStatement_roundtrip (n : Str) (cs : List Str) (hne : cs ≠ [])
    (hn : TrimSpace n = n) (hnp : '(' ∉ n)
    (hc : ∀ c ∈ cs, TrimSpace c = c ∧ '(' ∉ c ∧ ',' ∉ c) :
    parseCreateStatement (createStatement n cs) = (n, cs) := by
  have hbody : '(' ∉ commaJoin cs ++ ");".toList := by
    intro hm
    rcases List.mem_append.mp hm with h | h
    · exact not_mem_commaJoin '(' (by decide) cs (fun c hcm => (hc c hcm).2.1) h
    · revert h
      decide
  have hhead : '(' ∉ "CREATE TABLE".toList ++ (' ' :: (n ++ [' '])) := by
    intro hm
    rcases List.mem_append.mp hm with h | h
    · revert h
      decide
    · rcases List.mem_cons.mp h with h | h
      · revert h
        decide
      · rcases List.mem_append.mp h with h | h
        · exact hnp h
        · revert h
          decide
  have hstmt : createStatement n cs
      = ("CREATE TABLE".toList ++ (' ' :: (n ++ [' ']))) ++ '(' :: (commaJoin cs ++ ");".toList) := by
    simp [createStatement]
  have hparts : Split '(' (createStatement n cs)
      = [("CREATE TABLE".toList ++ (' ' :: (n ++ [' ']))), commaJoin cs ++ ");".toList] := by
    rw [hstmt, Split_append_sep '(' _ _ hhead, Split_of_not_mem '(' _ hbody]
  have hname : TrimSpace (' ' :: (n ++ [' '])) = n := by
    rw [TrimSpace_cons_space ' ' _ (by rfl), TrimSpace_concat_space ' ' n (by rfl), hn]
  have hattrs : (Split ',' (TrimSpace (commaJoin cs))).map TrimSpace = cs := by
    rw [map_TrimSpace_Split_TrimSpace ',' _ (by rfl),
      map_TrimSpace_Split_commaJoin cs hne (fun c hcm => (hc c hcm).2.2)]
    calc cs.map TrimSpace = cs.map id :=
          List.map_congr_left (fun c hcm => (hc c hcm).1)
      _ = cs := List.map_id cs
  unfold parseCreateStatement
  rw [hparts]
  simp only [List.length_cons, List.length_nil, List.getD_cons_zero, List.getD_cons_succ]
  rw [TrimPrefix_append, TrimSuffix_append, hname, hattrs]
  simp

/-- The statement `CREATE TABLE posts (id INT, title, );` gives back `posts` and the three
declarations `id INT`, `title` and the empty one. -/
theorem parseCreateStatement_roundtrip_witness :
    createStatement "posts".toList ["id INT".toList, "title".toList, []]
        = "CREATE TABLE posts (id INT, title, );".toList
      ∧ parseCreateStatement (createStatement "posts".toList ["id INT".toList, "title".toList, []])
        = ("posts".toList, ["id INT".toList, "title".toList, []]) :=
  ⟨by rfl,
    parseCreateStatement_roundtrip "posts".toList ["id INT".toList, "title".toList, []]
      (by decide) (by rfl) (by decide) (by decide)⟩

end GoSqlUml
